import Mathlib

/-!
Verification of the OpBox serial framing protocol
(OpBoxArduino_OpShield_StimVarDur/OpBoxSerialLibrary.h).

Bytes are modelled as natural numbers; byte sequences as lists. The
encoder functions produce the list of bytes that the corresponding C
function writes to the serial channel. The incremental packet decoder
SerialReceiveAndParsePacket is modelled as a state machine: parseStep
consumes one byte, parseRun folds it over a byte list, and parseChunks
feeds the stream to the decoder in chunks (arbitrary delivery splits).
Buffer writes performed by the decoder (index into the label or data
array) are modelled separately by parseStepWrites / parseRunWrites so
that bounds properties can be stated.
-/

namespace OpBoxSerial

/-- Start-of-packet marker, the character <. -/
def PACKET_START : Nat := 60

/-- Marker of a one-integer packet, the character | (vertical bar). -/
def PACKET_INT : Nat := 124

/-- Marker of a two-integer packet, the character ~ (tilde). -/
def PACKET_INT2 : Nat := 126

/-- Marker of a character packet, the character @. -/
def PACKET_CHAR : Nat := 64

/-- End-of-packet marker, the character >. -/
def PACKET_END : Nat := 62

/-- Capacity of the label and data accumulation buffers in the C code. -/
def MAX_BUFFER : Nat := 100

/-- The label bytes of the fixed error label "Err" (E, r, r). -/
def errLabelBytes : List Nat := [69, 114, 114]

/-- The bytes of the fixed error message text "SerInputErr" sent for a
noise byte observed outside a packet. -/
def serInputErrBytes : List Nat := [83, 101, 114, 73, 110, 112, 117, 116, 69, 114, 114]

/-- SerialWriteLongInt: writes the four bytes of a 32-bit unsigned value,
most significant first; each byte is (val >> s) & 0xff for s = 24, 16, 8, 0.
The C parameter type (unsigned long, 32 bits) is modelled by reducing the
argument modulo 2^32. -/
def SerialWriteLongInt (val : Nat) : List Nat :=
  [val % 2 ^ 32 / 2 ^ 24 % 256,
   val % 2 ^ 32 / 2 ^ 16 % 256,
   val % 2 ^ 32 / 2 ^ 8 % 256,
   val % 2 ^ 32 % 256]

/-- SerialSendInt: START, label bytes, INT marker, four big-endian bytes, END. -/
def SerialSendInt (text : List Nat) (ts : Nat) : List Nat :=
  PACKET_START :: text ++ PACKET_INT :: SerialWriteLongInt ts ++ [PACKET_END]

/-- SerialSendIntPair: START, label bytes, INT2 marker, four big-endian
bytes of each value, END. -/
def SerialSendIntPair (text : List Nat) (int1 int2 : Nat) : List Nat :=
  PACKET_START :: text ++ PACKET_INT2 ::
    (SerialWriteLongInt int1 ++ SerialWriteLongInt int2) ++ [PACKET_END]

/-- SerialSendChar: START, label bytes, CHAR marker, one data byte, END. -/
def SerialSendChar (text : List Nat) (data : Nat) : List Nat :=
  PACKET_START :: text ++ PACKET_CHAR :: data :: [PACKET_END]

/-- SerialSendCharPair: START, label bytes, CHAR marker, two data bytes, END. -/
def SerialSendCharPair (text : List Nat) (char1 char2 : Nat) : List Nat :=
  PACKET_START :: text ++ PACKET_CHAR :: char1 :: char2 :: [PACKET_END]

/-- SerialSendErrorText: START, the fixed label "Err", CHAR marker, the
message bytes, END. -/
def SerialSendErrorText (text : List Nat) : List Nat :=
  PACKET_START :: errLabelBytes ++ PACKET_CHAR :: text ++ [PACKET_END]

/-- All bytes the decoder writes outward for one noise byte b: the error
packet SerialSendErrorText("SerInputErr") followed by the raw offending
byte (written unframed, after the error packet's END marker). -/
def errNoticeWire (b : Nat) : List Nat :=
  SerialSendErrorText serInputErrBytes ++ [b]

/-- SerialHandshake, abstracted over the sequence of bytes that arrive on
the channel. Each outer-loop iteration blocks until a byte is available
(periodically writing the readiness byte, which does not affect the
result) and reads one byte; on reading P (byte 80) the loop breaks.
The result is the number of incoming bytes consumed before returning,
or none when no P byte ever arrives (the code then loops forever). -/
def SerialHandshake : List Nat → Option Nat
  | [] => none
  | b :: rest =>
      if b = 80 then some 1
      else (SerialHandshake rest).map (fun n => n + 1)

/-- Decoder state of SerialReceiveAndParsePacket: idle (searching for
START), collecting label bytes (flag_ser_label), or collecting data bytes
(flag_ser_data) after marker byte ty terminated the label lbl. -/
inductive ParsePhase where
  | idle : ParsePhase
  | label (acc : List Nat) : ParsePhase
  | data (lbl : List Nat) (ty : Nat) (acc : List Nat) : ParsePhase
deriving DecidableEq, Repr

/-- Observable event of one decoder step: an error notice for a noise
byte, or a completed packet (label, the marker byte returned as the
data type, and the accumulated payload bytes). -/
inductive ParseEvent where
  | err (b : Nat) : ParseEvent
  | packet (lbl : List Nat) (ty : Nat) (payload : List Nat) : ParseEvent
deriving DecidableEq, Repr

/-- One step of SerialReceiveAndParsePacket on one incoming byte, in the
order the C code tests: collecting-label first (a | or @ byte terminates
the label and records the data type; anything else is appended to the
label), then collecting-data (a > byte completes the packet and returns
the data type; anything else is appended to the data buffer), then the
idle search for < (any other byte produces an error notice). -/
def parseStep : ParsePhase → Nat → ParsePhase × List ParseEvent
  | .label acc, b =>
      if b = PACKET_INT ∨ b = PACKET_CHAR then (.data acc b [], [])
      else (.label (acc ++ [b]), [])
  | .data lbl ty acc, b =>
      if b = PACKET_END then (.idle, [.packet lbl ty acc])
      else (.data lbl ty (acc ++ [b]), [])
  | .idle, b =>
      if b = PACKET_START then (.label [], [])
      else (.idle, [.err b])

/-- Runs the decoder over a byte list from a given state, collecting the
final state and the events in order. Repeated calls to the blocking C
function correspond to one run: each call returns at a packet boundary
with the machine back in the idle phase. -/
def parseRun : ParsePhase → List Nat → ParsePhase × List ParseEvent
  | s, [] => (s, [])
  | s, b :: rest =>
      let p := parseStep s b
      let q := parseRun p.1 rest
      (q.1, p.2 ++ q.2)

/-- Events of a freshly initialized decoder run over a complete stream. -/
def parseEvents (bs : List Nat) : List ParseEvent :=
  (parseRun .idle bs).2

/-- Runs the decoder over a stream delivered in chunks: each chunk is
processed from the state in which the previous chunk left the decoder. -/
def parseChunks : ParsePhase → List (List Nat) → ParsePhase × List ParseEvent
  | s, [] => (s, [])
  | s, c :: cs =>
      let p := parseRun s c
      let q := parseChunks p.1 cs
      (q.1, p.2 ++ q.2)

/-- The buffer writes one decoder step performs, as pairs (buffer, index):
buffer 0 is the label array, buffer 1 the data array. In the collecting
phases the C code writes buffer[length] unconditionally, both when it
appends the incoming byte and when it writes the terminating NUL, so every
step in a collecting phase writes at index = current accumulated length.
The idle phase writes nothing into either array. -/
def parseStepWrites : ParsePhase → Nat → List (Nat × Nat)
  | .label acc, _ => [(0, acc.length)]
  | .data _ _ acc, _ => [(1, acc.length)]
  | .idle, _ => []

/-- All buffer writes of a decoder run, in order. -/
def parseRunWrites : ParsePhase → List Nat → List (Nat × Nat)
  | _, [] => []
  | s, b :: rest => parseStepWrites s b ++ parseRunWrites (parseStep s b).1 rest

/-- Accumulated buffer length of a decoder state (the next write index in
a collecting phase). -/
def phaseAccLen : ParsePhase → Nat
  | .idle => 0
  | .label acc => acc.length
  | .data _ _ acc => acc.length

/-- A packet value as the caller sees it: one of the four encoder
signatures. -/
inductive SPacket where
  | sint (lbl : List Nat) (v : Nat) : SPacket
  | ipair (lbl : List Nat) (v1 v2 : Nat) : SPacket
  | cdata (lbl : List Nat) (c : Nat) : SPacket
  | cpair (lbl : List Nat) (c1 c2 : Nat) : SPacket
deriving DecidableEq, Repr

/-- The bytes the corresponding C encoder writes for a packet. -/
def SPacket.encode : SPacket → List Nat
  | .sint lbl v => SerialSendInt lbl v
  | .ipair lbl v1 v2 => SerialSendIntPair lbl v1 v2
  | .cdata lbl c => SerialSendChar lbl c
  | .cpair lbl c1 c2 => SerialSendCharPair lbl c1 c2

/-- The label of a packet. -/
def SPacket.labelOf : SPacket → List Nat
  | .sint lbl _ => lbl
  | .ipair lbl _ _ => lbl
  | .cdata lbl _ => lbl
  | .cpair lbl _ _ => lbl

/-- The type-marker byte the encoder writes after the label. -/
def SPacket.markerOf : SPacket → Nat
  | .sint _ _ => PACKET_INT
  | .ipair _ _ _ => PACKET_INT2
  | .cdata _ _ => PACKET_CHAR
  | .cpair _ _ _ => PACKET_CHAR

/-- The payload bytes the encoder writes between the marker and END. -/
def SPacket.payloadOf : SPacket → List Nat
  | .sint _ v => SerialWriteLongInt v
  | .ipair _ v1 v2 => SerialWriteLongInt v1 ++ SerialWriteLongInt v2
  | .cdata _ c => [c]
  | .cpair _ c1 c2 => [c1, c2]

/-- The event a correct decode of a packet should produce. -/
def SPacket.decoded (P : SPacket) : ParseEvent :=
  .packet P.labelOf P.markerOf P.payloadOf

/-- A label with no embedded marker bytes (the spec's label invariant). -/
def validLabel (lbl : List Nat) : Prop :=
  ∀ b ∈ lbl, b ≠ PACKET_START ∧ b ≠ PACKET_INT ∧ b ≠ PACKET_INT2 ∧
    b ≠ PACKET_CHAR ∧ b ≠ PACKET_END

/-- A valid packet per the spec's data-model invariants: the label has no
embedded marker bytes; payloads carry 32-bit values or raw bytes. -/
def SPacket.valid : SPacket → Prop
  | .sint lbl _ => validLabel lbl
  | .ipair lbl _ _ => validLabel lbl
  | .cdata lbl _ => validLabel lbl
  | .cpair lbl _ _ => validLabel lbl

/-- The packets that actually round-trip through this decoder: valid
label, not an IntPair (the decoder has no INT2 case), and no payload byte
equal to the END marker (the data phase exits on any END byte). -/
def SPacket.roundTrips : SPacket → Prop
  | .sint lbl v => validLabel lbl ∧ ∀ b ∈ SerialWriteLongInt v, b ≠ PACKET_END
  | .ipair _ _ _ => False
  | .cdata lbl c => validLabel lbl ∧ c ≠ PACKET_END
  | .cpair lbl c1 c2 => validLabel lbl ∧ c1 ≠ PACKET_END ∧ c2 ≠ PACKET_END

instance : DecidablePred validLabel := fun lbl =>
  List.decidableBAll _ lbl

instance : DecidablePred SPacket.valid := fun P => by
  cases P <;> {unfold SPacket.valid; infer_instance}

instance : DecidablePred SPacket.roundTrips := fun P => by
  cases P <;> {unfold SPacket.roundTrips; infer_instance}

/-! Helper lemmas about decoder runs. -/

lemma parseRun_cons (s : ParsePhase) (b : Nat) (rest : List Nat) :
    parseRun s (b :: rest) =
      ((parseRun (parseStep s b).1 rest).1,
        (parseStep s b).2 ++ (parseRun (parseStep s b).1 rest).2) := rfl

lemma parseRun_append (s : ParsePhase) (xs ys : List Nat) :
    parseRun s (xs ++ ys) =
      ((parseRun (parseRun s xs).1 ys).1,
        (parseRun s xs).2 ++ (parseRun (parseRun s xs).1 ys).2) := by
  induction xs generalizing s with
  | nil => simp [parseRun]
  | cons b rest ih =>
      simp only [List.cons_append, parseRun_cons, ih, List.append_assoc]

lemma parseChunks_eq_flatten (s : ParsePhase) (cs : List (List Nat)) :
    parseChunks s cs = parseRun s cs.flatten := by
  induction cs generalizing s with
  | nil => simp [parseChunks, parseRun]
  | cons c rest ih =>
      simp only [parseChunks, List.flatten_cons, parseRun_append, ih]

lemma parseRun_label_chunk (acc : List Nat) (xs : List Nat)
    (h : ∀ b ∈ xs, b ≠ PACKET_INT ∧ b ≠ PACKET_CHAR) :
    parseRun (.label acc) xs = (.label (acc ++ xs), []) := by
  induction xs generalizing acc with
  | nil => simp [parseRun]
  | cons b rest ih =>
      have hb := h b (List.mem_cons_self b rest)
      have hstep : parseStep (.label acc) b = (.label (acc ++ [b]), []) := by
        simp [parseStep, hb.1, hb.2]
      rw [parseRun_cons, hstep]
      simp [ih (acc ++ [b]) (fun x hx => h x (List.mem_cons_of_mem b hx))]

lemma parseRun_data_chunk (lbl : List Nat) (ty : Nat) (acc : List Nat) (xs : List Nat)
    (h : ∀ b ∈ xs, b ≠ PACKET_END) :
    parseRun (.data lbl ty acc) xs = (.data lbl ty (acc ++ xs), []) := by
  induction xs generalizing acc with
  | nil => simp [parseRun]
  | cons b rest ih =>
      have hb := h b (List.mem_cons_self b rest)
      have hstep : parseStep (.data lbl ty acc) b = (.data lbl ty (acc ++ [b]), []) := by
        simp [parseStep, hb]
      rw [parseRun_cons, hstep]
      simp [ih (acc ++ [b]) (fun x hx => h x (List.mem_cons_of_mem b hx))]

lemma parseRun_packet (lbl : List Nat) (m : Nat) (payload : List Nat)
    (hl : ∀ b ∈ lbl, b ≠ PACKET_INT ∧ b ≠ PACKET_CHAR)
    (hm : m = PACKET_INT ∨ m = PACKET_CHAR)
    (hp : ∀ b ∈ payload, b ≠ PACKET_END) :
    parseRun .idle (PACKET_START :: lbl ++ m :: payload ++ [PACKET_END]) =
      (.idle, [.packet lbl m payload]) := by
  have h0 : parseStep .idle PACKET_START = (.label [], []) := by
    simp [parseStep]
  have h1 : parseStep (.label lbl) m = (.data lbl m [], []) := by
    simp [parseStep, hm]
  have h2 : parseStep (.data lbl m payload) PACKET_END =
      (.idle, [.packet lbl m payload]) := by
    simp [parseStep]
  simp only [List.cons_append, List.append_assoc]
  simp [parseRun_cons, parseRun_append, h0, h1, h2,
    parseRun_label_chunk [] lbl hl, parseRun_data_chunk lbl m [] payload hp,
    parseRun]

lemma encode_eq_frame (P : SPacket) :
    P.encode = PACKET_START :: P.labelOf ++ P.markerOf :: P.payloadOf ++ [PACKET_END] := by
  cases P <;>
    simp [SPacket.encode, SPacket.labelOf, SPacket.markerOf, SPacket.payloadOf,
      SerialSendInt, SerialSendIntPair, SerialSendChar, SerialSendCharPair]

lemma parseStepWrites_idx (s : ParsePhase) (b : Nat) (w : Nat × Nat)
    (hw : w ∈ parseStepWrites s b) : w.2 = phaseAccLen s := by
  cases s with
  | idle => simp [parseStepWrites] at hw
  | label acc =>
      simp only [parseStepWrites, List.mem_singleton] at hw
      simp [hw, phaseAccLen]
  | data lbl ty acc =>
      simp only [parseStepWrites, List.mem_singleton] at hw
      simp [hw, phaseAccLen]

lemma parseRunWrites_bounded (bs : List Nat) (s : ParsePhase)
    (h : ∀ i, i < bs.length → phaseAccLen (parseRun s (bs.take i)).1 < MAX_BUFFER) :
    ∀ w ∈ parseRunWrites s bs, w.2 < MAX_BUFFER := by
  induction bs generalizing s with
  | nil => simp [parseRunWrites]
  | cons b rest ih =>
      intro w hw
      rw [parseRunWrites] at hw
      rcases List.mem_append.1 hw with h1 | h2
      · have hs : phaseAccLen s < MAX_BUFFER := by
          have h0 := h 0 (by simp)
          simpa [parseRun] using h0
        rw [parseStepWrites_idx s b w h1]
        exact hs
      · refine ih (parseStep s b).1 (fun i hi => ?_) w h2
        have hsucc := h (i + 1) (by simpa using Nat.succ_lt_succ hi)
        simpa [List.take_succ_cons, parseRun_cons] using hsucc

/-- Invariant: whenever the decoder is in the data-collecting phase of a
run started from idle, the recorded data type is the INT or CHAR marker. -/
def phaseTyOK : ParsePhase → Prop
  | .data _ ty _ => ty = PACKET_INT ∨ ty = PACKET_CHAR
  | _ => True

lemma parseStep_tyOK (s : ParsePhase) (b : Nat) (hs : phaseTyOK s) :
    phaseTyOK (parseStep s b).1 ∧
      ∀ lbl ty payload, ParseEvent.packet lbl ty payload ∈ (parseStep s b).2 →
        ty = PACKET_INT ∨ ty = PACKET_CHAR := by
  cases s with
  | idle =>
      by_cases hb : b = PACKET_START <;> simp [parseStep, hb, phaseTyOK]
  | label acc =>
      by_cases hb : b = PACKET_INT ∨ b = PACKET_CHAR <;>
        simp [parseStep, hb, phaseTyOK]
  | data lbl ty acc =>
      by_cases hb : b = PACKET_END
      · refine ⟨by simp [parseStep, hb, phaseTyOK], ?_⟩
        intro l t p hmem
        have hev : (parseStep (.data lbl ty acc) b).2 = [ParseEvent.packet lbl ty acc] := by
          simp [parseStep, hb]
        rw [hev, List.mem_singleton] at hmem
        injection hmem with e1 e2 e3
        subst e2
        exact hs
      · simp [parseStep, hb, phaseTyOK]
        exact hs

lemma parseRun_tyOK (bs : List Nat) (s : ParsePhase) (hs : phaseTyOK s) :
    ∀ lbl ty payload, ParseEvent.packet lbl ty payload ∈ (parseRun s bs).2 →
      ty = PACKET_INT ∨ ty = PACKET_CHAR := by
  induction bs generalizing s with
  | nil => simp [parseRun]
  | cons b rest ih =>
      intro lbl ty payload hmem
      rw [parseRun_cons] at hmem
      rcases List.mem_append.1 hmem with h1 | h2
      · exact (parseStep_tyOK s b hs).2 lbl ty payload h1
      · exact ih (parseStep s b).1 (parseStep_tyOK s b hs).1 lbl ty payload h2

/-- Modelled from the spec: section 4.2 EncodeChar(label, data) writes
START, the label bytes, the CHAR marker, the raw payload bytes, END. The
source SerialSendChar fixes the payload to a single char, so this general
form, stated in the spec's words, is used for the comparison in C9. -/
def specEncodeChar (label data : List Nat) : List Nat :=
  PACKET_START :: label ++ PACKET_CHAR :: data ++ [PACKET_END]

/-! Claim theorems. -/

/-- C1 (counterexample): the claim fails as stated. The SingleInt packet
with label "Ts" and value 62 is valid per the spec's data-model
invariants, yet decoding its encoding does not yield the packet back: the
payload byte 62 equals the END marker, so the decoder completes early
with a three-byte payload and then reports the real END byte as noise. -/
theorem c1_roundtrip_cex :
    SPacket.valid (.sint [84, 115] 62) ∧
      parseEvents (SPacket.encode (.sint [84, 115] 62)) ≠
        [SPacket.decoded (.sint [84, 115] 62)] ∧
      parseEvents (SPacket.encode (.sint [84, 115] 62)) =
        [.packet [84, 115] PACKET_INT [0, 0, 0], .err PACKET_END] := by
  decide

/-- C1 (amended): every packet that is not an IntPair, whose label
contains no INT or CHAR marker byte, and whose payload bytes never equal
the END marker, is decoded back exactly from its encoding — for every way
of splitting the encoded byte stream into chunks across delivery calls —
and the decoder returns to the idle state. IntPair packets are excluded
because the decoder has no INT2 case, and END-valued payload bytes are
excluded because the data phase exits on any END byte. -/
theorem c1_roundtrip_chunked (P : SPacket) (chunks : List (List Nat))
    (hv : P.roundTrips) (hc : chunks.flatten = P.encode) :
    parseChunks .idle chunks = (.idle, [P.decoded]) := by
  have hm : P.markerOf = PACKET_INT ∨ P.markerOf = PACKET_CHAR := by
    cases P with
    | sint lbl v => exact Or.inl rfl
    | ipair lbl v1 v2 => exact absurd hv (by simp [SPacket.roundTrips])
    | cdata lbl c => exact Or.inr rfl
    | cpair lbl c1 c2 => exact Or.inr rfl
  have hl : ∀ b ∈ P.labelOf, b ≠ PACKET_INT ∧ b ≠ PACKET_CHAR := by
    have hvl : validLabel P.labelOf := by
      cases P with
      | sint lbl v => exact hv.1
      | ipair lbl v1 v2 => exact absurd hv (by simp [SPacket.roundTrips])
      | cdata lbl c => exact hv.1
      | cpair lbl c1 c2 => exact hv.1
    intro b hb
    exact ⟨(hvl b hb).2.1, (hvl b hb).2.2.2.1⟩
  have hp : ∀ b ∈ P.payloadOf, b ≠ PACKET_END := by
    cases P with
    | sint lbl v => exact hv.2
    | ipair lbl v1 v2 => exact absurd hv (by simp [SPacket.roundTrips])
    | cdata lbl c =>
        intro b hb
        rw [List.mem_singleton.1 hb]
        exact hv.2
    | cpair lbl c1 c2 =>
        intro b hb
        rcases List.mem_cons.1 hb with rfl | hb2
        · exact hv.2.1
        · rw [List.mem_singleton.1 hb2]
          exact hv.2.2
  rw [parseChunks_eq_flatten, hc, encode_eq_frame,
    parseRun_packet P.labelOf P.markerOf P.payloadOf hl hm hp]
  rfl

/-- C1 (witness): a Char packet with label "Ts" and byte 97 delivered in
two chunks split inside the label decodes back to the packet. -/
theorem c1_roundtrip_witness :
    parseChunks .idle [[60, 84], [115, 64, 97, 62]] =
      (.idle, [SPacket.decoded (.cdata [84, 115] 97)]) :=
  c1_roundtrip_chunked (.cdata [84, 115] 97) [[60, 84], [115, 64, 97, 62]]
    (by decide) (by decide)

/-- C2 (code bug): EncodeIntPair with values (1, 4294967295) serializes
both values big-endian as claimed (the second as four 0xFF bytes), but
decoding the produced bytes does not yield the pair: the decoder never
tests for the INT2 marker, so the tilde byte and all eight payload bytes
and the END byte are accumulated into the label and the run ends still in
the label-collecting phase with no packet produced. -/
theorem c2_intpair_decode_bug :
    SerialWriteLongInt 1 = [0, 0, 0, 1] ∧
      SerialWriteLongInt 4294967295 = [255, 255, 255, 255] ∧
      parseRun .idle (SerialSendIntPair [84, 115] 1 4294967295) =
        (.label [84, 115, 126, 0, 0, 0, 1, 255, 255, 255, 255, 62], []) := by
  decide

/-- C3 (counterexample): the claim that no decoder step writes past the
buffer capacity fails. On the stream consisting of START followed by 100
label bytes and the INT marker, the marker step writes the terminating
NUL into the label array at index 100 = MAX_BUFFER, one past the last
valid index of a MAX_BUFFER-byte array, with no defined failure. -/
theorem c3_buffer_writes_cex :
    (0, MAX_BUFFER) ∈
      parseRunWrites .idle
        (PACKET_START :: (List.replicate MAX_BUFFER 97 ++ [PACKET_INT])) := by
  decide

/-- C3 (amended): the reference decoder has no overflow guard at all.
Every step taken in a collecting phase writes at index exactly the
current accumulated buffer length, unconditionally; consequently all
writes stay below MAX_BUFFER precisely on runs whose accumulated label
and payload lengths stay below MAX_BUFFER, and once accumulation reaches
MAX_BUFFER the next write lands at an out-of-bounds index rather than
triggering a defined BufferOverflow failure (which the spec requires only
of reimplementations). -/
theorem c3_buffer_writes :
    (∀ s b w, w ∈ parseStepWrites s b → w.2 = phaseAccLen s) ∧
      ∀ bs : List Nat,
        (∀ i, i < bs.length →
          phaseAccLen (parseRun .idle (bs.take i)).1 < MAX_BUFFER) →
        ∀ w ∈ parseRunWrites .idle bs, w.2 < MAX_BUFFER := by
  constructor
  · intro s b w hw
    exact parseStepWrites_idx s b w hw
  · intro bs h
    exact parseRunWrites_bounded bs .idle h

/-- C3 (witness): on a five-byte well-formed packet every buffer write of
the decoder is in bounds; in particular the first recorded write is. -/
theorem c3_buffer_writes_witness : ((0, 0) : Nat × Nat).2 < MAX_BUFFER :=
  c3_buffer_writes.2 [60, 97, 124, 98, 62] (by decide) (0, 0) (by decide)

/-- C4: decoding two non-START noise bytes followed by the encoding of a
SingleInt packet with label "Ts" and value 5 produces exactly two error
notices, one per noise byte and in their order, then exactly one decoded
packet with label "Ts", the INT data type, and payload bytes 0 0 0 5; and
the wire bytes written for each notice contain the offending byte (echoed
raw immediately after the Err packet). -/
theorem c4_noise_then_packet (x y : Nat)
    (hx : x ≠ PACKET_START) (hy : y ≠ PACKET_START) :
    parseEvents (x :: y :: SerialSendInt [84, 115] 5) =
      [.err x, .err y, .packet [84, 115] PACKET_INT [0, 0, 0, 5]] ∧
      x ∈ errNoticeWire x ∧ y ∈ errNoticeWire y := by
  refine ⟨?_, by simp [errNoticeWire], by simp [errNoticeWire]⟩
  have hsx : parseStep .idle x = (.idle, [.err x]) := by
    simp [parseStep, hx]
  have hsy : parseStep .idle y = (.idle, [.err y]) := by
    simp [parseStep, hy]
  have htail : parseRun .idle (SerialSendInt [84, 115] 5) =
      (.idle, [.packet [84, 115] PACKET_INT [0, 0, 0, 5]]) := by
    decide
  simp [parseEvents, parseRun_cons, hsx, hsy, htail]

/-- C4 (witness): the noise bytes 88 and 89 before the packet give the
two error notices and then the decoded packet. -/
theorem c4_noise_then_packet_witness :
    parseEvents (88 :: 89 :: SerialSendInt [84, 115] 5) =
      [.err 88, .err 89, .packet [84, 115] PACKET_INT [0, 0, 0, 5]] ∧
      88 ∈ errNoticeWire 88 ∧ 89 ∈ errNoticeWire 89 :=
  c4_noise_then_packet 88 89 (by decide) (by decide)

/-- C5: encoding a SingleInt packet with label "Ts" and value 0x12345678
and decoding the produced bytes yields label "Ts", the INT data type, and
the payload bytes 0x12 0x34 0x56 0x78 in most-significant-first order. -/
theorem c5_singleint_roundtrip :
    SerialWriteLongInt 305419896 = [18, 52, 86, 120] ∧
      parseEvents (SerialSendInt [84, 115] 305419896) =
        [.packet [84, 115] PACKET_INT [18, 52, 86, 120]] := by
  decide

/-- C6: a packet with an empty label — START immediately followed by the
CHAR marker, one data byte, and END — decodes to the empty label, the
CHAR data type, and a payload of exactly that byte (a data byte is not
the END marker, which the spec forbids inside Char payloads). -/
theorem c6_empty_label_char (b : Nat) (hb : b ≠ PACKET_END) :
    parseEvents [PACKET_START, PACKET_CHAR, b, PACKET_END] =
      [.packet [] PACKET_CHAR [b]] := by
  have h1 : parseStep .idle PACKET_START = (.label [], []) := by
    simp [parseStep]
  have h2 : parseStep (.label []) PACKET_CHAR = (.data [] PACKET_CHAR [], []) := by
    simp [parseStep]
  have h3 : parseStep (.data [] PACKET_CHAR []) b = (.data [] PACKET_CHAR [b], []) := by
    simp [parseStep, hb]
  have h4 : parseStep (.data [] PACKET_CHAR [b]) PACKET_END =
      (.idle, [.packet [] PACKET_CHAR [b]]) := by
    simp [parseStep]
  simp [parseEvents, parseRun_cons, h1, h2, h3, h4, parseRun]

/-- C6 (witness): the data byte 97 between the CHAR marker and END
decodes to the empty label with payload 97. -/
theorem c6_empty_label_char_witness :
    parseEvents [PACKET_START, PACKET_CHAR, 97, PACKET_END] =
      [.packet [] PACKET_CHAR [97]] :=
  c6_empty_label_char 97 (by decide)

/-- C7: the handshake returns exactly when the first P byte of the
incoming stream is consumed: it completes with k bytes consumed iff the
stream starts with a P-free prefix of length k - 1 followed by a P, so
every earlier non-P byte is consumed without aborting and no return
happens before a P has been read (an all-non-P stream never returns). -/
theorem c7_handshake_first_p (bs : List Nat) (k : Nat) :
    SerialHandshake bs = some k ↔
      ∃ pre rest, bs = pre ++ 80 :: rest ∧ (∀ b ∈ pre, b ≠ 80) ∧
        k = pre.length + 1 := by
  induction bs generalizing k with
  | nil =>
      constructor
      · intro h
        exact absurd h (by simp [SerialHandshake])
      · rintro ⟨pre, rest, h, -, -⟩
        exact absurd h (by simp)
  | cons b rest ih =>
      by_cases hb : b = 80
      · subst hb
        rw [SerialHandshake, if_pos rfl]
        constructor
        · intro h
          injection h with h
          exact ⟨[], rest, rfl, by simp, h.symm⟩
        · rintro ⟨pre, r2, heq, hpre, hk⟩
          cases pre with
          | nil =>
              simp at hk
              rw [hk]
          | cons p ps =>
              rw [List.cons_append] at heq
              have hp : p = 80 := (List.cons.inj heq.symm).1
              exact absurd hp (hpre p (List.mem_cons_self p ps))
      · rw [SerialHandshake, if_neg hb]
        constructor
        · intro h
          rcases Option.map_eq_some'.1 h with ⟨k0, hk0, hkk⟩
          rcases (ih k0).1 hk0 with ⟨pre, r2, heq, hpre, hk⟩
          refine ⟨b :: pre, r2, by rw [heq]; rfl, ?_, ?_⟩
          · intro x hx
            rcases List.mem_cons.1 hx with rfl | hx2
            · exact hb
            · exact hpre x hx2
          · simp only [List.length_cons]
            omega
        · rintro ⟨pre, r2, heq, hpre, hk⟩
          cases pre with
          | nil =>
              exfalso
              apply hb
              simpa using congrArg (fun l => l.headI) heq
          | cons p ps =>
              have hcons := heq
              rw [List.cons_append] at hcons
              have hrest : rest = ps ++ 80 :: r2 := (List.cons.inj hcons).2
              have h0 : SerialHandshake rest = some (ps.length + 1) :=
                (ih (ps.length + 1)).2
                  ⟨ps, r2, hrest, fun x hx => hpre x (List.mem_cons_of_mem p hx), rfl⟩
              rw [h0]
              simp only [Option.map_some', Option.some.injEq]
              simp only [List.length_cons] at hk
              omega

/-- C7 (witness): on the stream A then P the handshake consumes both
bytes and returns after the P. -/
theorem c7_handshake_first_p_witness : SerialHandshake [65, 80] = some 2 :=
  (c7_handshake_first_p [65, 80] 2).mpr ⟨[65], [], rfl, by decide, rfl⟩

/-- C8: the decoder is deterministic — two independently freshly
initialized decoders run over the same complete byte stream produce the
same final state and the same event sequence, hence identical decoded
packets in the same order. -/
theorem c8_decoder_deterministic (bs : List Nat) (d1 d2 : ParsePhase)
    (h1 : d1 = .idle) (h2 : d2 = .idle) :
    parseRun d1 bs = parseRun d2 bs := by
  rw [h1, h2]

/-- C8 (witness): the two fresh decoders agree on a concrete stream. -/
theorem c8_decoder_deterministic_witness :
    parseRun .idle [60, 64, 97, 62] = parseRun .idle [60, 64, 97, 62] :=
  c8_decoder_deterministic [60, 64, 97, 62] .idle .idle rfl rfl

/-- C9: SerialSendErrorText writes exactly the bytes of the spec's
EncodeChar with the label fixed to "Err" and the message as payload —
START, E r r, CHAR marker, the message bytes, END — and agrees exactly
with SerialSendChar on every single-byte message (the source SerialSendChar
takes a single payload char). -/
theorem c9_error_is_char_encode (msg : List Nat) :
    SerialSendErrorText msg = specEncodeChar errLabelBytes msg ∧
      SerialSendErrorText msg =
        PACKET_START :: 69 :: 114 :: 114 :: PACKET_CHAR :: (msg ++ [PACKET_END]) ∧
      ∀ c, SerialSendErrorText [c] = SerialSendChar errLabelBytes c := by
  refine ⟨rfl, ?_, fun c => ?_⟩
  · simp [SerialSendErrorText, errLabelBytes]
  · simp [SerialSendErrorText, SerialSendChar, errLabelBytes]

/-- C10: every packet the decoder produces from a fresh run carries as
its data type exactly the marker byte that terminated the label, and that
byte is always the INT or the CHAR marker; the INT2 marker is never
recorded because the label phase tests only for INT and CHAR — a tilde
byte is appended to the label like any ordinary byte. -/
theorem c10_marker_return :
    (∀ bs lbl ty payload,
        ParseEvent.packet lbl ty payload ∈ parseEvents bs →
          ty = PACKET_INT ∨ ty = PACKET_CHAR) ∧
      (∀ acc m, (m = PACKET_INT ∨ m = PACKET_CHAR) →
        parseStep (.label acc) m = (.data acc m [], [])) ∧
      ∀ acc, parseStep (.label acc) PACKET_INT2 =
        (.label (acc ++ [PACKET_INT2]), []) := by
  refine ⟨fun bs => parseRun_tyOK bs .idle trivial, fun acc m hm => ?_, fun acc => ?_⟩
  · simp [parseStep, hm]
  · simp [parseStep, PACKET_INT2, PACKET_INT, PACKET_CHAR]

/-- C10 (witness): the concrete stream START, CHAR, END decodes to a
packet whose data type is the CHAR marker, an INT-or-CHAR value. -/
theorem c10_marker_return_witness :
    (64 : Nat) = PACKET_INT ∨ (64 : Nat) = PACKET_CHAR :=
  c10_marker_return.1 [60, 64, 62] [] 64 [] (by decide)

end OpBoxSerial
